import Mathlib

/-!
Verification of the bonsai-foundry-template repository: a shallow embedding
of the relay request store and proof-lifecycle managers, the two example
guest programs (`is_even`, `fibonacci`), and the SDK CLI guest resolution,
together with theorems settling the specification claims.

The relay storage and manager implementations are exercised only through
their integration tests in this repository, so those components are
modelled from the specification (each such definition carries a
`Modelled from the spec:` doc comment).  The guest programs and the CLI
are embedded directly from their source files.
-/

/-! ## Relay data model (modelled from the spec) -/

/-- Modelled from the spec: the lifecycle states of a proof request
(`storage::ProofRequestState`, implementation not in src/; used by
`relay/tests/manager.rs`). -/
inductive ProofRequestState where
  | Pending
  | Completed
  | PreparingOnchain
  | CompletedOnchain
deriving DecidableEq, Repr

/-- Modelled from the spec: the successor of each state in the fixed
lifecycle path; the terminal state has no successor. -/
def nextState : ProofRequestState → Option ProofRequestState
  | .Pending => some .Completed
  | .Completed => some .PreparingOnchain
  | .PreparingOnchain => some .CompletedOnchain
  | .CompletedOnchain => none

/-- The full lifecycle path of the spec. -/
def fullPath : List ProofRequestState :=
  [.Pending, .Completed, .PreparingOnchain, .CompletedOnchain]

/-- The suffix of the lifecycle path starting at a given state. -/
def pathFrom : ProofRequestState → List ProofRequestState
  | .Pending => [.Pending, .Completed, .PreparingOnchain, .CompletedOnchain]
  | .Completed => [.Completed, .PreparingOnchain, .CompletedOnchain]
  | .PreparingOnchain => [.PreparingOnchain, .CompletedOnchain]
  | .CompletedOnchain => [.CompletedOnchain]

/-- The callback-request event captured as a request's origin
(`CallbackRequestFilter`, fields as constructed in `relay/tests/manager.rs`). -/
structure CallbackRequestFilter where
  account : Nat
  image_id : Nat
  input : List Nat
  callback_contract : Nat
  function_selector : List Nat
  gas_limit : Nat
deriving DecidableEq, Repr

/-- The information under which a request is inserted
(`storage::ProofRequstInformation` as used in `relay/tests/manager.rs`). -/
structure ProofRequstInformation where
  proof_request_id : Nat
  callback_proof_request_event : CallbackRequestFilter
deriving DecidableEq, Repr

/-- Modelled from the spec: the stored record of one proof request:
immutable origin, current state, optional proof payload. -/
structure ProofRequest where
  info : ProofRequstInformation
  state : ProofRequestState
  payload : Option (List Nat)
deriving DecidableEq, Repr

/-- Modelled from the spec: the in-memory request store, a keyed table
from request id to record (`storage::in_memory::InMemoryStorage`,
implementation not in src/). -/
abbrev Storage : Type := List (Nat × ProofRequest)

/-- Modelled from the spec: the storage error kinds surfaced by the store
(`storage::Error`; `relay/tests/manager.rs` matches on `ProofNotFound`). -/
inductive StorageError where
  | ProofNotFound (id : Nat)
  | ProofAlreadyExists (id : Nat)
  | InvalidTransition (id : Nat)
deriving DecidableEq, Repr

/-- Look up the record stored under an id. -/
def lookupReq : Storage → Nat → Option ProofRequest
  | [], _ => none
  | (k, r) :: s, id => if k = id then some r else lookupReq s id

/-- Modelled from the spec: `insert(id, origin)` fails if the id is already
present, otherwise creates the request in state `Pending`
(`add_new_bonsai_proof_request` in `relay/tests/manager.rs`). -/
def add_new_bonsai_proof_request (s : Storage) (info : ProofRequstInformation) :
    Except StorageError Storage :=
  match lookupReq s info.proof_request_id with
  | some _ => .error (.ProofAlreadyExists info.proof_request_id)
  | none => .ok ((info.proof_request_id, ⟨info, .Pending, none⟩) :: s)

/-- Overwrite the state of the record stored under the given id. -/
def setReqState : Storage → Nat → ProofRequestState → Storage
  | [], _, _ => []
  | (k, r) :: s, id, st =>
    if k = id then (k, { r with state := st }) :: s
    else (k, r) :: setReqState s id st

/-- Overwrite the payload of the record stored under the given id. -/
def setReqPayload : Storage → Nat → List Nat → Storage
  | [], _, _ => []
  | (k, r) :: s, id, pay =>
    if k = id then (k, { r with payload := some pay }) :: s
    else (k, r) :: setReqPayload s id pay

/-- Modelled from the spec: `transition(id, expected_current_state)` checks
that the current state equals the expected one and advances to the next
state of the fixed sequence, failing with a transition error on a mismatch
or a missing id (`transition_proof_request` in `relay/tests/manager.rs`). -/
def transition_proof_request (s : Storage) (id : Nat)
    (expected : ProofRequestState) : Except StorageError Storage :=
  match lookupReq s id with
  | none => .error (.ProofNotFound id)
  | some r =>
    if r.state = expected then
      match nextState expected with
      | some st => .ok (setReqState s id st)
      | none => .error (.InvalidTransition id)
    else .error (.InvalidTransition id)

/-- Modelled from the spec: `get_state(id)` returns the current state or a
not-found error (`get_proof_request_state` in `relay/tests/manager.rs`). -/
def get_proof_request_state (s : Storage) (id : Nat) :
    Except StorageError ProofRequestState :=
  match lookupReq s id with
  | none => .error (.ProofNotFound id)
  | some r => .ok r.state

/-- Modelled from the spec: `remove(id)` deletes the record. -/
def removeProofRequest : Storage → Nat → Storage
  | [], _ => []
  | (k, r) :: s, id =>
    if k = id then removeProofRequest s id else (k, r) :: removeProofRequest s id

/-- The state-mutating storage operations available to the managers. -/
inductive StorageOp where
  | insert (info : ProofRequstInformation)
  | transition (id : Nat) (expected : ProofRequestState)
  | setPayload (id : Nat) (pay : List Nat)
  | remove (id : Nat)
deriving DecidableEq, Repr

/-- Apply one storage operation; a failing operation leaves the store
unchanged. -/
def applyOp (s : Storage) : StorageOp → Storage
  | .insert info =>
    match add_new_bonsai_proof_request s info with
    | .ok s1 => s1
    | .error _ => s
  | .transition id expected =>
    match transition_proof_request s id expected with
    | .ok s1 => s1
    | .error _ => s
  | .setPayload id pay => setReqPayload s id pay
  | .remove id => removeProofRequest s id

/-- Run a sequence of storage operations. -/
def runOps (s : Storage) (ops : List StorageOp) : Storage :=
  ops.foldl applyOp s

/-- The empty store. -/
def emptyStorage : Storage := []

/-- Whether an operation is an insertion of the given id. -/
def isInsertOf (op : StorageOp) (id : Nat) : Bool :=
  match op with
  | .insert info => info.proof_request_id == id
  | _ => false

/-- How many operations of the sequence insert the given id. -/
def insertCount (ops : List StorageOp) (id : Nat) : Nat :=
  (ops.filter (fun op => isInsertOf op id)).length

/-- The current state stored under an id, if present. -/
def lookupState (s : Storage) (id : Nat) : Option ProofRequestState :=
  (lookupReq s id).map (fun r => r.state)

/-- The state of the given request observed after each operation of a run
(absent requests contribute nothing). -/
def statesTrace (s : Storage) (ops : List StorageOp) (id : Nat) :
    List ProofRequestState :=
  match ops with
  | [] => []
  | op :: rest =>
    let s1 := applyOp s op
    (lookupState s1 id).toList ++ statesTrace s1 rest id

/-- Collapse consecutive duplicates of a list. -/
def dedupConsec {α : Type} [DecidableEq α] : List α → List α
  | [] => []
  | [a] => [a]
  | a :: b :: l => if a = b then dedupConsec (b :: l) else a :: dedupConsec (b :: l)

/-! ## Manager models (modelled from the spec) -/

/-- Modelled from the spec: the pending-proof manager's handling of one
poll that completed successfully during a step
(`BonsaiPendingProofManager::step`, implementation not in src/): transition
the request `Pending → Completed` and raise the "job completed" signal.
The returned boolean is the raised signal. -/
def pendingManagerHandlePollDone (s : Storage) (id : Nat) :
    Except StorageError (Storage × Bool) :=
  match transition_proof_request s id .Pending with
  | .ok s1 => .ok (s1, true)
  | .error e => .error e

/-- Modelled from the spec: one entry of the open batch kept by the
completed-proof manager: callback address, function selector, gas limit,
image id and fetched proof payload for one request. -/
structure BatchEntry where
  id : Nat
  callback_contract : Nat
  function_selector : List Nat
  gas_limit : Nat
  image_id : Nat
  payload : List Nat
deriving DecidableEq, Repr

/-- The request ids represented in a batch. -/
def batchIds (batch : List BatchEntry) : List Nat := batch.map (·.id)

/-- Build the batch entry for one stored request and its fetched payload. -/
def mkBatchEntry (p : Nat × ProofRequest) (pay : List Nat) : BatchEntry :=
  { id := p.1
    callback_contract := p.2.info.callback_proof_request_event.callback_contract
    function_selector := p.2.info.callback_proof_request_event.function_selector
    gas_limit := p.2.info.callback_proof_request_event.gas_limit
    image_id := p.2.info.callback_proof_request_event.image_id
    payload := pay }

/-- The stored requests in state `Completed` that are not yet represented
in the open batch. -/
def completedNotInBatch (s : Storage) (batch : List BatchEntry) :
    List (Nat × ProofRequest) :=
  s.filter (fun p => decide (p.2.state = .Completed ∧ p.1 ∉ batchIds batch))

/-- The storage effect of handling one completed request: transition it
`Completed → PreparingOnchain`. -/
def jobDoneStep (acc : Storage) (p : Nat × ProofRequest) : Storage :=
  applyOp acc (.transition p.1 .Completed)

/-- Modelled from the spec: the completed-proof manager's step when woken
by the "job completed" signal (`BonsaiCompleteProofManager::step`,
implementation not in src/): for each `Completed` request not yet in the
open batch, fetch its proof payload from the proving service (`fetch`),
transition it `Completed → PreparingOnchain` and append an entry to the
open batch. -/
def completedManagerHandleJobDone (fetch : Nat → List Nat) (s : Storage)
    (batch : List BatchEntry) : Storage × List BatchEntry :=
  let targets := completedNotInBatch s batch
  let s1 := targets.foldl jobDoneStep s
  (s1, batch ++ targets.map (fun p => mkBatchEntry p (fetch p.1)))

/-- The storage effect of flushing one batch entry: transition its request
`PreparingOnchain → CompletedOnchain`, then remove it from the store. -/
def flushEntryStep (acc : Storage) (e : BatchEntry) : Storage :=
  removeProofRequest (applyOp acc (.transition e.id .PreparingOnchain)) e.id

/-- Modelled from the spec: the completed-proof manager's step when woken
by a timer tick or flush signal (`BonsaiCompleteProofManager::step`,
implementation not in src/): if the open batch is non-empty, submit it as
a single transaction, then transition every request in it
`PreparingOnchain → CompletedOnchain` and remove it from the store, and
clear the batch; if the batch is empty, send nothing.  The third component
collects the submitted transactions. -/
def completedManagerFlush (s : Storage) (batch : List BatchEntry) :
    Storage × List BatchEntry × List (List BatchEntry) :=
  match batch with
  | [] => (s, [], [])
  | _ => (batch.foldl flushEntryStep s, [], [batch])

/-! ## Guest programs (embedded from src/methods/guest/src/bin) -/

/-- The modulus of 256-bit machine integers. -/
def u256Bound : Nat := 2 ^ 256

/-- Big-endian byte encoding of a number into `w` bytes; for `w = 32` this
is the ABI encoding of a `uint256` word. -/
def beBytes (w : Nat) (n : Nat) : List Nat :=
  (List.range w).map (fun i => n / 256 ^ (w - 1 - i) % 256)

/-- The ABI encoding of a `U256` value (`abi_encode` of `alloy` on a
`U256`): one 32-byte big-endian word. -/
def abiEncodeU256 (n : Nat) : List Nat := beBytes 32 n

/-- The journal committed by the `is_even` guest
(`methods/guest/src/bin/is_even.rs`): read a `U256`, zero it if its lowest
bit is set, and commit its ABI encoding. -/
def isEvenGuestJournal (number : Nat) : List Nat :=
  let number1 := if Nat.testBit number 0 then 0 else number
  abiEncodeU256 number1

/-- The loop of the `fibonacci` guest function
(`methods/guest/src/bin/fibonacci.rs`): starting from `(prev, curr)`, fold
`(prev, curr) := (curr, prev + curr)` the given number of times, with
256-bit wrapping addition, and return `curr`. -/
def fibLoop : Nat → Nat → Nat → Nat
  | 0, _, curr => curr
  | k + 1, prev, curr => fibLoop k curr ((prev + curr) % u256Bound)

/-- The `fibonacci` function of the guest
(`methods/guest/src/bin/fibonacci.rs`): `prev = curr = 1`, `i = 2`, loop
while `i < n`; the loop body runs `n - 2` times (none when `n ≤ 2`). -/
def fibonacci (n : Nat) : Nat := fibLoop (n - 2) 1 1

/-- The sequence of the claim: `a 1 = a 2 = 1` and
`a k = a (k - 1) + a (k - 2)`; the value at `0` is taken to be `0`, which
is consistent with the recurrence and unused by the claim. -/
def aSeq : Nat → Nat
  | 0 => 0
  | 1 => 1
  | n + 2 => aSeq n + aSeq (n + 1)

/-! ## SDK CLI guest resolution (embedded from src/sdk/src/cli.rs) -/

/-- One entry of the guest list (`risc0_build::GuestListEntry` as consumed
by `sdk/src/cli.rs`); the image id is kept as its 32-byte form, the form
the source casts `[u32; 8]` into before comparing. -/
structure GuestListEntry where
  name : String
  image_id : List Nat
  elf : List Nat
deriving DecidableEq, Repr

/-- `str::to_uppercase` as used on guest names (ASCII mapping; guest
names and image-id queries are ASCII). -/
def strToUpper (s : String) : String := ⟨s.data.map Char.toUpper⟩

/-- `str::to_lowercase` (ASCII mapping). -/
def strToLower (s : String) : String := ⟨s.data.map Char.toLower⟩

/-- The numeric value of a hexadecimal digit character, if any
(`hex::decode` digit handling). -/
def hexDigitVal (c : Char) : Option Nat :=
  if '0' ≤ c ∧ c ≤ '9' then some (c.toNat - '0'.toNat)
  else if 'a' ≤ c ∧ c ≤ 'f' then some (10 + c.toNat - 'a'.toNat)
  else if 'A' ≤ c ∧ c ≤ 'F' then some (10 + c.toNat - 'A'.toNat)
  else none

/-- `hex::decode`: decode a character list into bytes; fails on an odd
length or a non-hexadecimal character. -/
def hexDecode : List Char → Option (List Nat)
  | [] => some []
  | [_] => none
  | c1 :: c2 :: rest =>
    match hexDigitVal c1, hexDigitVal c2, hexDecode rest with
    | some h, some l, some t => some ((h * 16 + l) :: t)
    | _, _, _ => none

/-- `str::trim_start_matches("0x")`: remove every leading occurrence of
`"0x"`. -/
def trimStart0x : List Char → List Char
  | '0' :: 'x' :: rest => trimStart0x rest
  | l => l

/-- The candidate image id derived from the query string
(`sdk/src/cli.rs`, `resolve_guest_entry`): lowercase, strip leading
`"0x"`, hex-decode; any failure or a length other than 32 falls back to
the all-zero image id (`unwrap_or([0u8; 32])`). -/
def potentialGuestImageId (guest_binary : String) : List Nat :=
  match hexDecode (trimStart0x (strToLower guest_binary).data) with
  | some bs => if bs.length = 32 then bs else List.replicate 32 0
  | none => List.replicate 32 0

/-- The error produced when no guest entry matches
(`anyhow!("Unknown guest binary ...")` in `sdk/src/cli.rs`), carrying the
query and the hex-listed image ids of the known guests. -/
structure UnknownGuestBinary where
  guest_binary : String
  found_guests : List (List Nat)
deriving DecidableEq, Repr

/-- Whether a guest entry matches the query: its name equals the
uppercased query, or its image id equals the candidate image id
(`sdk/src/cli.rs`, the `find` closure of `resolve_guest_entry`). -/
def guestMatches (guest_binary : String) (entry : GuestListEntry) : Bool :=
  entry.name == strToUpper guest_binary || entry.image_id == potentialGuestImageId guest_binary

/-- `resolve_guest_entry` (`sdk/src/cli.rs`): return the ELF of the first
matching entry of the guest list, or the unknown-guest error. -/
def resolve_guest_entry (guest_list : List GuestListEntry)
    (guest_binary : String) : Except UnknownGuestBinary (List Nat) :=
  match guest_list.find? (fun entry => guestMatches guest_binary entry) with
  | some entry => .ok entry.elf
  | none =>
    .error ⟨guest_binary, guest_list.map (fun g => g.image_id)⟩

/-- The matching criterion of the claim, as a proposition over the source
definitions: the entry's name equals the uppercased query or its 32-byte
image id equals the hex decoding of the query with the `"0x"` prefix
stripped and lowercased (falling back to the all-zero id). -/
def matchesQuery (guest_binary : String) (entry : GuestListEntry) : Prop :=
  entry.name = strToUpper guest_binary ∨ entry.image_id = potentialGuestImageId guest_binary

/-! ## Basic storage lemmas -/

theorem lookupReq_cons (k : Nat) (r : ProofRequest) (s : Storage) (id : Nat) :
    lookupReq ((k, r) :: s) id = if k = id then some r else lookupReq s id := rfl

theorem lookupReq_setReqState_self (s : Storage) (id : Nat) (st : ProofRequestState) :
    lookupReq (setReqState s id st) id
      = (lookupReq s id).map (fun r => { r with state := st }) := by
  induction s with
  | nil => rfl
  | cons p s ih =>
    obtain ⟨k, r⟩ := p
    by_cases hk : k = id
    · subst hk
      simp [setReqState, lookupReq]
    · simpa [setReqState, lookupReq, hk] using ih

theorem lookupReq_setReqState_ne (s : Storage) {id id' : Nat}
    (h : id ≠ id') (st : ProofRequestState) :
    lookupReq (setReqState s id st) id' = lookupReq s id' := by
  induction s with
  | nil => rfl
  | cons p s ih =>
    obtain ⟨k, r⟩ := p
    by_cases hk : k = id
    · subst hk
      simp [setReqState, lookupReq, h]
    · by_cases hk' : k = id'
      · subst hk'
        simp [setReqState, lookupReq, hk]
      · simpa [setReqState, lookupReq, hk, hk'] using ih

theorem lookupState_setReqPayload (s : Storage) (id : Nat) (pay : List Nat) (id' : Nat) :
    lookupState (setReqPayload s id pay) id' = lookupState s id' := by
  induction s with
  | nil => rfl
  | cons p s ih =>
    obtain ⟨k, r⟩ := p
    by_cases hk : k = id
    · subst hk
      by_cases hk' : k = id'
      · subst hk'
        simp [setReqPayload, lookupState, lookupReq]
      · simp [setReqPayload, lookupState, lookupReq, hk']
    · by_cases hk' : k = id'
      · subst hk'
        simp [setReqPayload, lookupState, lookupReq, hk]
      · simpa [setReqPayload, lookupState, lookupReq, hk, hk'] using ih

theorem lookupReq_remove_self (s : Storage) (id : Nat) :
    lookupReq (removeProofRequest s id) id = none := by
  induction s with
  | nil => rfl
  | cons p s ih =>
    obtain ⟨k, r⟩ := p
    by_cases hk : k = id
    · subst hk
      simpa [removeProofRequest] using ih
    · simpa [removeProofRequest, lookupReq, hk] using ih

theorem lookupReq_remove_ne (s : Storage) {id id' : Nat} (h : id ≠ id') :
    lookupReq (removeProofRequest s id) id' = lookupReq s id' := by
  induction s with
  | nil => rfl
  | cons p s ih =>
    obtain ⟨k, r⟩ := p
    by_cases hk : k = id
    · subst hk
      simpa [removeProofRequest, lookupReq, h] using ih
    · by_cases hk' : k = id'
      · subst hk'
        simp [removeProofRequest, lookupReq, hk]
      · simpa [removeProofRequest, lookupReq, hk, hk'] using ih

theorem nextState_ne {st st' : ProofRequestState} (h : nextState st = some st') :
    st ≠ st' := by
  cases st <;> cases st' <;> simp_all [nextState]

theorem pathFrom_next {st st' : ProofRequestState} (h : nextState st = some st') :
    pathFrom st = st :: pathFrom st' := by
  cases st <;> cases st' <;> simp_all [nextState, pathFrom]

theorem singleton_pref_pathFrom (st : ProofRequestState) : [st] <+: pathFrom st := by
  cases st <;> exact ⟨_, rfl⟩

theorem cons_pref {α : Type} (a : α) {l₁ l₂ : List α} (h : l₁ <+: l₂) :
    a :: l₁ <+: a :: l₂ := by
  obtain ⟨t, ht⟩ := h
  exact ⟨t, by simp [ht]⟩

theorem dedupConsec_cons_same {α : Type} [DecidableEq α] (a : α) (l : List α) :
    dedupConsec (a :: a :: l) = dedupConsec (a :: l) := by
  simp [dedupConsec]

theorem dedupConsec_cons_ne {α : Type} [DecidableEq α] {a b : α} (h : a ≠ b)
    (l : List α) : dedupConsec (a :: b :: l) = a :: dedupConsec (b :: l) := by
  simp [dedupConsec, h]

theorem lookupReq_eq_none_of_state {s : Storage} {id : Nat}
    (h : lookupState s id = none) : lookupReq s id = none := by
  cases hl : lookupReq s id with
  | none => rfl
  | some r => simp [lookupState, hl] at h

theorem transition_ok_shape {s : Storage} {id : Nat} {exp : ProofRequestState}
    {s1 : Storage} (h : transition_proof_request s id exp = .ok s1) :
    ∃ r st', lookupReq s id = some r ∧ r.state = exp ∧ nextState exp = some st' ∧
      s1 = setReqState s id st' := by
  rw [transition_proof_request] at h
  cases hr : lookupReq s id <;> simp [hr] at h
  case some r =>
    by_cases hexp : r.state = exp
    · simp only [hexp, if_true, eq_self_iff_true, if_pos] at h
      cases hnx : nextState exp <;> simp [hnx] at h
      rename_i st'
      exact ⟨r, st', rfl, hexp, rfl, h.symm⟩
    · simp [hexp] at h

theorem applyOp_insert_ne (s : Storage) {info : ProofRequstInformation} {id : Nat}
    (h : info.proof_request_id ≠ id) :
    lookupState (applyOp s (.insert info)) id = lookupState s id := by
  cases hl : lookupReq s info.proof_request_id with
  | some r => simp [applyOp, add_new_bonsai_proof_request, hl]
  | none => simp [applyOp, add_new_bonsai_proof_request, hl, lookupState, lookupReq, h]

theorem applyOp_insert_self (s : Storage) (info : ProofRequstInformation)
    (h : lookupState s info.proof_request_id = none) :
    lookupState (applyOp s (.insert info)) info.proof_request_id
      = some .Pending := by
  have hr := lookupReq_eq_none_of_state h
  simp [applyOp, add_new_bonsai_proof_request, hr, lookupState, lookupReq]

theorem applyOp_transition_ne (s : Storage) {tid id : Nat} (h : tid ≠ id)
    (exp : ProofRequestState) :
    lookupState (applyOp s (.transition tid exp)) id = lookupState s id := by
  cases htr : transition_proof_request s tid exp with
  | error e => simp [applyOp, htr]
  | ok s1 =>
    obtain ⟨r, st', hr, hexp, hnx, rfl⟩ := transition_ok_shape htr
    simp [applyOp, htr, lookupState, lookupReq_setReqState_ne s h st']

theorem applyOp_transition_self (s : Storage) (id : Nat) (exp : ProofRequestState)
    {st : ProofRequestState} (h : lookupState s id = some st) :
    lookupState (applyOp s (.transition id exp)) id = some st ∨
    ∃ st', nextState st = some st' ∧
      lookupState (applyOp s (.transition id exp)) id = some st' := by
  cases hr : lookupReq s id with
  | none => simp [lookupState, hr] at h
  | some r =>
    have hst : r.state = st := by simpa [lookupState, hr] using h
    by_cases hexp : r.state = exp
    · cases hnx : nextState exp with
      | none =>
        left
        simp [applyOp, transition_proof_request, hr, hexp, hnx, h]
      | some st' =>
        right
        refine ⟨st', ?_, ?_⟩
        · rw [← hst, hexp, hnx]
        · simp [applyOp, transition_proof_request, hr, hexp, hnx, lookupState,
            lookupReq_setReqState_self, Option.map_map]
    · left
      simp [applyOp, transition_proof_request, hr, hexp, h]

theorem applyOp_setPayload_eq (s : Storage) (tid : Nat) (pay : List Nat) (id : Nat) :
    lookupState (applyOp s (.setPayload tid pay)) id = lookupState s id :=
  lookupState_setReqPayload s tid pay id

theorem applyOp_remove_ne (s : Storage) {tid id : Nat} (h : tid ≠ id) :
    lookupState (applyOp s (.remove tid)) id = lookupState s id := by
  show lookupState (removeProofRequest s tid) id = _
  simp [lookupState, lookupReq_remove_ne s h]

theorem applyOp_remove_self (s : Storage) (id : Nat) :
    lookupState (applyOp s (.remove id)) id = none := by
  show lookupState (removeProofRequest s id) id = none
  simp [lookupState, lookupReq_remove_self]

theorem applyOp_lookupState_none (s : Storage) (op : StorageOp) (id : Nat)
    (hin : isInsertOf op id = false) (h : lookupState s id = none) :
    lookupState (applyOp s op) id = none := by
  cases op with
  | insert info =>
    have hne : info.proof_request_id ≠ id := by simpa [isInsertOf] using hin
    rw [applyOp_insert_ne s hne]
    exact h
  | transition tid exp =>
    by_cases ht : tid = id
    · subst ht
      have hr := lookupReq_eq_none_of_state h
      simp [applyOp, transition_proof_request, hr, h]
    · rw [applyOp_transition_ne s ht exp]
      exact h
  | setPayload tid pay =>
    rw [applyOp_setPayload_eq s tid pay id]
    exact h
  | remove tid =>
    by_cases ht : tid = id
    · subst ht
      exact applyOp_remove_self s tid
    · rw [applyOp_remove_ne s ht]
      exact h

theorem applyOp_lookupState_some (s : Storage) (op : StorageOp) (id : Nat)
    {st : ProofRequestState} (hin : isInsertOf op id = false)
    (h : lookupState s id = some st) :
    lookupState (applyOp s op) id = some st ∨
    (∃ st', nextState st = some st' ∧ lookupState (applyOp s op) id = some st') ∨
    lookupState (applyOp s op) id = none := by
  cases op with
  | insert info =>
    have hne : info.proof_request_id ≠ id := by simpa [isInsertOf] using hin
    left
    rw [applyOp_insert_ne s hne]
    exact h
  | transition tid exp =>
    by_cases ht : tid = id
    · subst ht
      rcases applyOp_transition_self s tid exp h with h1 | h1
      · exact Or.inl h1
      · exact Or.inr (Or.inl h1)
    · left
      rw [applyOp_transition_ne s ht exp]
      exact h
  | setPayload tid pay =>
    left
    rw [applyOp_setPayload_eq s tid pay id]
    exact h
  | remove tid =>
    by_cases ht : tid = id
    · subst ht
      exact Or.inr (Or.inr (applyOp_remove_self s tid))
    · left
      rw [applyOp_remove_ne s ht]
      exact h

theorem insertCount_cons (op : StorageOp) (ops : List StorageOp) (id : Nat) :
    insertCount (op :: ops) id
      = (if isInsertOf op id then 1 else 0) + insertCount ops id := by
  by_cases h : isInsertOf op id = true
  · simp [insertCount, List.filter_cons, h, Nat.add_comm]
  · simp [insertCount, List.filter_cons, h]

theorem statesTrace_cons (s : Storage) (op : StorageOp) (rest : List StorageOp)
    (id : Nat) :
    statesTrace s (op :: rest) id
      = (lookupState (applyOp s op) id).toList ++ statesTrace (applyOp s op) rest id :=
  rfl

theorem statesTrace_absent (ops : List StorageOp) (s : Storage) (id : Nat)
    (h : lookupState s id = none) (hno : insertCount ops id = 0) :
    statesTrace s ops id = [] := by
  induction ops generalizing s with
  | nil => rfl
  | cons op rest ih =>
    rw [insertCount_cons] at hno
    by_cases hins : isInsertOf op id = true
    · simp [hins] at hno
    · have hins' : isInsertOf op id = false := by simpa using hins
      have h1 : lookupState (applyOp s op) id = none :=
        applyOp_lookupState_none s op id hins' h
      rw [statesTrace_cons, h1]
      simp [ih (applyOp s op) h1 (by simpa [hins'] using hno)]

theorem statesTrace_present (ops : List StorageOp) (s : Storage) (id : Nat)
    (st : ProofRequestState) (h : lookupState s id = some st)
    (hno : insertCount ops id = 0) :
    dedupConsec (st :: statesTrace s ops id) <+: pathFrom st := by
  induction ops generalizing s st with
  | nil => simpa [statesTrace, dedupConsec] using singleton_pref_pathFrom st
  | cons op rest ih =>
    rw [insertCount_cons] at hno
    by_cases hins : isInsertOf op id = true
    · simp [hins] at hno
    · have hins' : isInsertOf op id = false := by simpa using hins
      have hrest : insertCount rest id = 0 := by simpa [hins'] using hno
      rw [statesTrace_cons]
      rcases applyOp_lookupState_some s op id hins' h with h1 | ⟨st', hnx, h1⟩ | h1
      · rw [h1]
        simp only [Option.toList_some, List.singleton_append]
        rw [dedupConsec_cons_same]
        exact ih (applyOp s op) st h1 hrest
      · rw [h1]
        simp only [Option.toList_some, List.singleton_append]
        rw [dedupConsec_cons_ne (nextState_ne hnx)]
        rw [pathFrom_next hnx]
        exact cons_pref st (ih (applyOp s op) st' h1 hrest)
      · rw [h1]
        have htr : statesTrace (applyOp s op) rest id = [] :=
          statesTrace_absent rest (applyOp s op) id h1 hrest
        simp only [htr, Option.toList_none, List.nil_append]
        simpa [dedupConsec] using singleton_pref_pathFrom st

theorem statesTrace_from_absent (ops : List StorageOp) (s : Storage) (id : Nat)
    (h : lookupState s id = none) (hcount : insertCount ops id ≤ 1) :
    dedupConsec (statesTrace s ops id) <+: fullPath := by
  induction ops generalizing s with
  | nil => exact ⟨fullPath, rfl⟩
  | cons op rest ih =>
    rw [insertCount_cons] at hcount
    rw [statesTrace_cons]
    by_cases hins : isInsertOf op id = true
    · cases op with
      | insert info =>
        have hid : info.proof_request_id = id := by simpa [isInsertOf] using hins
        subst hid
        have h1 : lookupState (applyOp s (.insert info)) info.proof_request_id
            = some .Pending := applyOp_insert_self s info h
        rw [h1]
        have hrest : insertCount rest info.proof_request_id = 0 := by
          simp [hins] at hcount
          omega
        simp only [Option.toList_some, List.singleton_append]
        have hp := statesTrace_present rest (applyOp s (.insert info))
          info.proof_request_id .Pending h1 hrest
        simpa [pathFrom, fullPath] using hp
      | transition tid exp => simp [isInsertOf] at hins
      | setPayload tid pay => simp [isInsertOf] at hins
      | remove tid => simp [isInsertOf] at hins
    · have hins' : isInsertOf op id = false := by simpa using hins
      have h1 := applyOp_lookupState_none s op id hins' h
      rw [h1]
      simp only [Option.toList_none, List.nil_append]
      exact ih (applyOp s op) h1 (by simpa [hins'] using hcount)

/-- C1: for every proof request in the store, the sequence of states it is
observed in over its lifetime (at most one insertion of its id) is a prefix
of the fixed path `Pending, Completed, PreparingOnchain, CompletedOnchain`;
no transition skips a state and none moves backward. -/
theorem observed_states_follow_fixed_path (ops : List StorageOp) (id : Nat)
    (h : insertCount ops id ≤ 1) :
    dedupConsec (statesTrace emptyStorage ops id) <+: fullPath :=
  statesTrace_from_absent ops emptyStorage id rfl h

/-- Witness for C1 at a concrete run: insert request 1, then advance it
twice. -/
theorem observed_states_follow_fixed_path_witness :
    insertCount [StorageOp.insert ⟨1, ⟨0, 0, [], 0, [], 0⟩⟩,
        StorageOp.transition 1 .Pending, StorageOp.transition 1 .Completed] 1 ≤ 1 ∧
    dedupConsec (statesTrace emptyStorage
        [StorageOp.insert ⟨1, ⟨0, 0, [], 0, [], 0⟩⟩,
         StorageOp.transition 1 .Pending, StorageOp.transition 1 .Completed] 1)
      <+: fullPath :=
  ⟨by decide,
   observed_states_follow_fixed_path
     [StorageOp.insert ⟨1, ⟨0, 0, [], 0, [], 0⟩⟩,
      StorageOp.transition 1 .Pending, StorageOp.transition 1 .Completed] 1
     (by decide)⟩

/-- C3: `transition(id, s)` atomically checks the current state against the
expected one and advances to the next state of the fixed sequence, failing
with a transition error when the current state differs or the id is absent;
a second call with the same expected state yields `InvalidTransition` and
never advances the request by two states. -/
theorem transition_checks_then_advances (s : Storage) (id : Nat)
    (exp : ProofRequestState) :
    (lookupReq s id = none →
      transition_proof_request s id exp = .error (.ProofNotFound id)) ∧
    (∀ r, lookupReq s id = some r → r.state ≠ exp →
      transition_proof_request s id exp = .error (.InvalidTransition id)) ∧
    (∀ r st', lookupReq s id = some r → r.state = exp → nextState exp = some st' →
      ∃ s1, transition_proof_request s id exp = .ok s1 ∧
        get_proof_request_state s1 id = .ok st' ∧
        transition_proof_request s1 id exp = .error (.InvalidTransition id)) := by
  refine ⟨?_, ?_, ?_⟩
  · intro h
    simp [transition_proof_request, h]
  · intro r hr hne
    simp [transition_proof_request, hr, hne]
  · intro r st' hr hst hnx
    refine ⟨setReqState s id st', ?_, ?_, ?_⟩
    · simp [transition_proof_request, hr, hst, hnx]
    · simp [get_proof_request_state, lookupReq_setReqState_self, hr]
    · have hl := lookupReq_setReqState_self s id st'
      rw [hr] at hl
      have hne : st' ≠ exp := (nextState_ne hnx).symm
      simp [transition_proof_request, hl, hne]

/-- Witness for C3: a pending request advances to `Completed` once, and a
retried transition with the same expected state is rejected. -/
theorem transition_checks_then_advances_witness :
    ∃ s1, transition_proof_request
        [(1, ⟨⟨1, ⟨0, 0, [], 0, [], 0⟩⟩, .Pending, none⟩)] 1 .Pending = .ok s1 ∧
      get_proof_request_state s1 1 = .ok .Completed ∧
      transition_proof_request s1 1 .Pending = .error (.InvalidTransition 1) :=
  (transition_checks_then_advances
      [(1, ⟨⟨1, ⟨0, 0, [], 0, [], 0⟩⟩, .Pending, none⟩)] 1 .Pending).2.2
    ⟨⟨1, ⟨0, 0, [], 0, [], 0⟩⟩, .Pending, none⟩ .Completed rfl rfl rfl

/-- C4: `insert(id, origin)` fails when a request with that id is already
present, and otherwise creates the request in state `Pending`. -/
theorem insert_rejects_duplicate_creates_pending (s : Storage)
    (info : ProofRequstInformation) :
    (∀ r, lookupReq s info.proof_request_id = some r →
      add_new_bonsai_proof_request s info
        = .error (.ProofAlreadyExists info.proof_request_id)) ∧
    (lookupReq s info.proof_request_id = none →
      add_new_bonsai_proof_request s info
          = .ok ((info.proof_request_id, ⟨info, .Pending, none⟩) :: s) ∧
        get_proof_request_state ((info.proof_request_id, ⟨info, .Pending, none⟩) :: s)
          info.proof_request_id = .ok .Pending) := by
  constructor
  · intro r hr
    simp [add_new_bonsai_proof_request, hr]
  · intro h
    constructor
    · simp [add_new_bonsai_proof_request, h]
    · simp [get_proof_request_state, lookupReq]

/-- Witness for C4: inserting id 1 into the empty store succeeds and a
second insertion of the same id is rejected. -/
theorem insert_rejects_duplicate_creates_pending_witness :
    add_new_bonsai_proof_request emptyStorage ⟨1, ⟨0, 0, [], 0, [], 0⟩⟩
        = .ok [(1, ⟨⟨1, ⟨0, 0, [], 0, [], 0⟩⟩, .Pending, none⟩)] ∧
      get_proof_request_state [(1, ⟨⟨1, ⟨0, 0, [], 0, [], 0⟩⟩, .Pending, none⟩)] 1
        = .ok .Pending :=
  (insert_rejects_duplicate_creates_pending emptyStorage
    ⟨1, ⟨0, 0, [], 0, [], 0⟩⟩).2 rfl

/-- C5: for every request whose poll of the proving service completes
successfully during a pending-proof-manager step, the step transitions the
request from `Pending` to `Completed` and raises the "job completed"
signal. -/
theorem pending_manager_poll_done_completes (s : Storage) (id : Nat)
    (r : ProofRequest) (hr : lookupReq s id = some r)
    (hst : r.state = .Pending) :
    ∃ s1, pendingManagerHandlePollDone s id = .ok (s1, true) ∧
      get_proof_request_state s1 id = .ok .Completed := by
  refine ⟨setReqState s id .Completed, ?_, ?_⟩
  · simp [pendingManagerHandlePollDone, transition_proof_request, hr, hst, nextState]
  · simp [get_proof_request_state, lookupReq_setReqState_self, hr]

/-- Witness for C5 on a one-request store holding a pending request. -/
theorem pending_manager_poll_done_completes_witness :
    ∃ s1, pendingManagerHandlePollDone
        [(7, ⟨⟨7, ⟨0, 0, [], 0, [], 0⟩⟩, .Pending, none⟩)] 7 = .ok (s1, true) ∧
      get_proof_request_state s1 7 = .ok .Completed :=
  pending_manager_poll_done_completes
    [(7, ⟨⟨7, ⟨0, 0, [], 0, [], 0⟩⟩, .Pending, none⟩)] 7
    ⟨⟨7, ⟨0, 0, [], 0, [], 0⟩⟩, .Pending, none⟩ rfl rfl

theorem flushEntryStep_preserves_none {acc : Storage} {id : Nat}
    (e : BatchEntry) (h : lookupState acc id = none) :
    lookupState (flushEntryStep acc e) id = none := by
  by_cases he : e.id = id
  · subst he
    show lookupState (removeProofRequest _ e.id) e.id = none
    simp [lookupState, lookupReq_remove_self]
  · have h1 : lookupState (applyOp acc (.transition e.id .PreparingOnchain)) id
        = none :=
      applyOp_lookupState_none acc (.transition e.id .PreparingOnchain) id rfl h
    show lookupState (removeProofRequest _ e.id) id = none
    rw [lookupState, lookupReq_remove_ne _ he]
    rw [lookupState] at h1
    exact h1

theorem flushFold_lookup_none (batch : List BatchEntry) (s : Storage) (id : Nat)
    (h : lookupState s id = none) :
    lookupState (batch.foldl flushEntryStep s) id = none := by
  induction batch generalizing s with
  | nil => exact h
  | cons e rest ih => exact ih _ (flushEntryStep_preserves_none e h)

theorem flushFold_removes (batch : List BatchEntry) (s : Storage)
    (e : BatchEntry) (he : e ∈ batch) :
    lookupState (batch.foldl flushEntryStep s) e.id = none := by
  induction batch generalizing s with
  | nil => cases he
  | cons e1 rest ih =>
    rcases List.mem_cons.mp he with h1 | h1
    · subst h1
      refine flushFold_lookup_none rest (flushEntryStep s e) e.id ?_
      show lookupState (removeProofRequest _ e.id) e.id = none
      simp [lookupState, lookupReq_remove_self]
    · exact ih _ h1

/-- C7: a completed-proof-manager step woken by a timer tick or flush
signal submits, for a non-empty open batch, exactly one transaction
containing the batch, transitions every request in the batch to
`CompletedOnchain` and removes it from the store, and clears the batch;
for an empty batch it sends no transaction. -/
theorem flush_step_sends_one_batch_and_clears (s : Storage)
    (batch : List BatchEntry) :
    (batch = [] → completedManagerFlush s batch = (s, [], [])) ∧
    (batch ≠ [] →
      (completedManagerFlush s batch).2.2 = [batch] ∧
      (completedManagerFlush s batch).2.1 = [] ∧
      ∀ e ∈ batch, get_proof_request_state (completedManagerFlush s batch).1 e.id
        = .error (.ProofNotFound e.id)) := by
  constructor
  · intro h
    subst h
    rfl
  · intro h
    cases batch with
    | nil => exact absurd rfl h
    | cons b rest =>
      refine ⟨rfl, rfl, ?_⟩
      intro e he
      have hn : lookupState ((b :: rest).foldl flushEntryStep s) e.id = none :=
        flushFold_removes (b :: rest) s e he
      have hr := lookupReq_eq_none_of_state hn
      rw [List.foldl_cons] at hr
      simp [completedManagerFlush, get_proof_request_state, hr]

/-- Witness for C7 at a concrete one-element batch over a store holding the
request in `PreparingOnchain`. -/
theorem flush_step_sends_one_batch_and_clears_witness :
    (completedManagerFlush [(1, ⟨⟨1, ⟨0, 0, [], 0, [], 0⟩⟩, .PreparingOnchain, none⟩)]
        [⟨1, 0, [], 0, 0, []⟩]).2.2 = [[⟨1, 0, [], 0, 0, []⟩]] ∧
    (completedManagerFlush [(1, ⟨⟨1, ⟨0, 0, [], 0, [], 0⟩⟩, .PreparingOnchain, none⟩)]
        [⟨1, 0, [], 0, 0, []⟩]).2.1 = [] ∧
    ∀ e ∈ [(⟨1, 0, [], 0, 0, []⟩ : BatchEntry)],
      get_proof_request_state
        (completedManagerFlush [(1, ⟨⟨1, ⟨0, 0, [], 0, [], 0⟩⟩, .PreparingOnchain, none⟩)]
          [⟨1, 0, [], 0, 0, []⟩]).1 e.id = .error (.ProofNotFound e.id) :=
  (flush_step_sends_one_batch_and_clears
    [(1, ⟨⟨1, ⟨0, 0, [], 0, [], 0⟩⟩, .PreparingOnchain, none⟩)]
    [⟨1, 0, [], 0, 0, []⟩]).2 (by simp)

theorem runOps_preserves_none (ops : List StorageOp) (s : Storage) (id : Nat)
    (h : lookupState s id = none) (hno : insertCount ops id = 0) :
    lookupState (runOps s ops) id = none := by
  induction ops generalizing s with
  | nil => exact h
  | cons op rest ih =>
    rw [insertCount_cons] at hno
    by_cases hins : isInsertOf op id = true
    · simp [hins] at hno
    · have hins' : isInsertOf op id = false := by simpa using hins
      exact ih (applyOp s op) (applyOp_lookupState_none s op id hins' h)
        (by simpa [hins'] using hno)

/-- C2: once a request reaches the terminal state `CompletedOnchain`
(which happens inside the flush step), it is removed from the store, and
every subsequent `get_state` call on its id — across any further
operations that do not re-insert the id — fails with `ProofNotFound`. -/
theorem get_state_not_found_after_terminal (s : Storage)
    (batch : List BatchEntry) (e : BatchEntry) (ops : List StorageOp)
    (hmem : e ∈ batch) (hno : insertCount ops e.id = 0) :
    get_proof_request_state (runOps (completedManagerFlush s batch).1 ops) e.id
      = .error (.ProofNotFound e.id) := by
  cases batch with
  | nil => cases hmem
  | cons b rest =>
    have h0 : lookupState (completedManagerFlush s (b :: rest)).1 e.id = none := by
      have hrm := flushFold_removes (b :: rest) s e hmem
      simpa [completedManagerFlush] using hrm
    have h1 := runOps_preserves_none ops _ e.id h0 hno
    have hr := lookupReq_eq_none_of_state h1
    simp [get_proof_request_state, hr]

/-- Witness for C2: after flushing a one-element batch, a later transition
attempt does not resurrect the id and `get_state` reports `ProofNotFound`. -/
theorem get_state_not_found_after_terminal_witness :
    get_proof_request_state
      (runOps (completedManagerFlush
          [(1, ⟨⟨1, ⟨0, 0, [], 0, [], 0⟩⟩, .PreparingOnchain, none⟩)]
          [⟨1, 0, [], 0, 0, []⟩]).1
        [StorageOp.transition 1 .Pending]) 1
      = .error (.ProofNotFound 1) :=
  get_state_not_found_after_terminal
    [(1, ⟨⟨1, ⟨0, 0, [], 0, [], 0⟩⟩, .PreparingOnchain, none⟩)]
    [⟨1, 0, [], 0, 0, []⟩] ⟨1, 0, [], 0, 0, []⟩
    [StorageOp.transition 1 .Pending] (by simp) (by decide)

theorem lookupReq_some_mem {s : Storage} {id : Nat} {r : ProofRequest}
    (h : lookupReq s id = some r) : (id, r) ∈ s := by
  induction s with
  | nil => cases h
  | cons p rest ih =>
    obtain ⟨k, r1⟩ := p
    by_cases hk : k = id
    · subst hk
      rw [lookupReq_cons, if_pos rfl] at h
      cases h
      exact List.mem_cons_self _ _
    · rw [lookupReq_cons, if_neg hk] at h
      exact List.mem_cons_of_mem _ (ih h)

theorem get_state_of_lookupState {s : Storage} {id : Nat}
    {st : ProofRequestState} (h : lookupState s id = some st) :
    get_proof_request_state s id = .ok st := by
  cases hr : lookupReq s id with
  | none => simp [lookupState, hr] at h
  | some r =>
    have : r.state = st := by simpa [lookupState, hr] using h
    simp [get_proof_request_state, hr, this]

theorem jobDoneStep_lookupState_ne {acc : Storage} {p : Nat × ProofRequest}
    {id : Nat} (h : p.1 ≠ id) :
    lookupState (jobDoneStep acc p) id = lookupState acc id :=
  applyOp_transition_ne acc h .Completed

theorem jobDoneFold_lookupState_ne (l : List (Nat × ProofRequest))
    (acc : Storage) (id : Nat) (h : ∀ p ∈ l, p.1 ≠ id) :
    lookupState (l.foldl jobDoneStep acc) id = lookupState acc id := by
  induction l generalizing acc with
  | nil => rfl
  | cons p rest ih =>
    rw [List.foldl_cons]
    rw [ih (jobDoneStep acc p) (fun q hq => h q (List.mem_cons_of_mem p hq))]
    exact jobDoneStep_lookupState_ne (h p (List.mem_cons_self p rest))

theorem jobDoneStep_completes {acc : Storage} (p : Nat × ProofRequest)
    (h : lookupState acc p.1 = some .Completed) :
    lookupState (jobDoneStep acc p) p.1 = some .PreparingOnchain := by
  cases hr : lookupReq acc p.1 with
  | none => simp [lookupState, hr] at h
  | some r =>
    have hst : r.state = ProofRequestState.Completed := by
      simpa [lookupState, hr] using h
    simp [jobDoneStep, applyOp, transition_proof_request, hr, hst, nextState,
      lookupState, lookupReq_setReqState_self, Option.map_map]

/-- C6: when a completed-proof-manager step is woken by the "job completed"
signal, every request in state `Completed` not yet in the open batch is
transitioned `Completed → PreparingOnchain`, exactly one entry carrying its
fetched payload is appended to the open batch, and the previous batch is
kept as a prefix. -/
theorem job_done_step_moves_completed_into_batch (fetch : Nat → List Nat)
    (s : Storage) (batch : List BatchEntry) (id : Nat) (r : ProofRequest)
    (hnodup : (s.map (fun p => p.1)).Nodup)
    (hr : lookupReq s id = some r) (hst : r.state = .Completed)
    (hnb : id ∉ batchIds batch) :
    get_proof_request_state (completedManagerHandleJobDone fetch s batch).1 id
        = .ok .PreparingOnchain ∧
    (batchIds (completedManagerHandleJobDone fetch s batch).2).count id = 1 ∧
    batch <+: (completedManagerHandleJobDone fetch s batch).2 ∧
    ∃ e ∈ (completedManagerHandleJobDone fetch s batch).2,
      e.id = id ∧ e.payload = fetch id := by
  have hmem : (id, r) ∈ completedNotInBatch s batch := by
    refine List.mem_filter.mpr ⟨lookupReq_some_mem hr, ?_⟩
    simp [hst, hnb]
  have hsub : List.Sublist (completedNotInBatch s batch) s := List.filter_sublist s
  have hkeysnodup : ((completedNotInBatch s batch).map (fun p => p.1)).Nodup :=
    List.Nodup.sublist (List.Sublist.map (fun p => p.1) hsub) hnodup
  obtain ⟨l₁, l₂, hsplit⟩ := List.append_of_mem hmem
  have hkeys : ((l₁ ++ (id, r) :: l₂).map (fun p => p.1)).Nodup := by
    rw [← hsplit]
    exact hkeysnodup
  rw [List.map_append, List.map_cons] at hkeys
  have hdisj := List.nodup_append.mp hkeys
  have hid_l₁ : ∀ p ∈ l₁, p.1 ≠ id := by
    intro p hp heq
    exact hdisj.2.2 (List.mem_map_of_mem _ hp) (heq ▸ List.mem_cons_self id _)
  have hid_l₂ : ∀ p ∈ l₂, p.1 ≠ id := by
    intro p hp heq
    have hmem2 : id ∈ l₂.map (fun p => p.1) := by
      rw [← heq]
      exact List.mem_map_of_mem _ hp
    exact (List.nodup_cons.mp hdisj.2.1).1 hmem2
  have hn1 : id ∉ l₁.map (fun p => p.1) := by
    intro hmem1
    obtain ⟨p, hp, hpe⟩ := List.mem_map.mp hmem1
    exact hid_l₁ p hp hpe
  have hn2 : id ∉ l₂.map (fun p => p.1) := (List.nodup_cons.mp hdisj.2.1).1
  have hfold : lookupState ((completedNotInBatch s batch).foldl jobDoneStep s) id
      = some .PreparingOnchain := by
    rw [hsplit, List.foldl_append, List.foldl_cons]
    rw [jobDoneFold_lookupState_ne l₂ _ id hid_l₂]
    refine jobDoneStep_completes (id, r) ?_
    rw [jobDoneFold_lookupState_ne l₁ s id hid_l₁]
    simp [lookupState, hr, hst]
  refine ⟨get_state_of_lookupState hfold, ?_, ⟨_, rfl⟩, ?_⟩
  · show (batchIds (batch ++ (completedNotInBatch s batch).map
        (fun p => mkBatchEntry p (fetch p.1)))).count id = 1
    rw [batchIds, List.map_append, List.count_append, List.map_map]
    have h0 : (batch.map (fun e => e.id)).count id = 0 :=
      List.count_eq_zero.mpr (by simpa [batchIds] using hnb)
    have hcomp : ((fun e => BatchEntry.id e) ∘ fun p => mkBatchEntry p (fetch p.1))
        = fun p : Nat × ProofRequest => p.1 := rfl
    rw [hcomp, h0, hsplit, List.map_append, List.map_cons, List.count_append,
      List.count_cons_self, List.count_eq_zero.mpr hn1, List.count_eq_zero.mpr hn2]
  · refine ⟨mkBatchEntry (id, r) (fetch id), ?_, rfl, rfl⟩
    exact List.mem_append_right _ (List.mem_map_of_mem _ hmem)

/-- Witness for C6: a store holding one completed request and an empty
batch; the step prepares it on-chain and batches exactly one entry. -/
theorem job_done_step_moves_completed_into_batch_witness :
    get_proof_request_state
        (completedManagerHandleJobDone (fun _ => [5])
          [(3, ⟨⟨3, ⟨0, 0, [], 0, [], 0⟩⟩, .Completed, none⟩)] []).1 3
      = .ok .PreparingOnchain ∧
    (batchIds (completedManagerHandleJobDone (fun _ => [5])
        [(3, ⟨⟨3, ⟨0, 0, [], 0, [], 0⟩⟩, .Completed, none⟩)] []).2).count 3 = 1 ∧
    [] <+: (completedManagerHandleJobDone (fun _ => [5])
        [(3, ⟨⟨3, ⟨0, 0, [], 0, [], 0⟩⟩, .Completed, none⟩)] []).2 ∧
    ∃ e ∈ (completedManagerHandleJobDone (fun _ => [5])
        [(3, ⟨⟨3, ⟨0, 0, [], 0, [], 0⟩⟩, .Completed, none⟩)] []).2,
      e.id = 3 ∧ e.payload = (fun _ : Nat => [5]) 3 :=
  job_done_step_moves_completed_into_batch (fun _ => [5])
    [(3, ⟨⟨3, ⟨0, 0, [], 0, [], 0⟩⟩, .Completed, none⟩)] [] 3
    ⟨⟨3, ⟨0, 0, [], 0, [], 0⟩⟩, .Completed, none⟩
    (by decide) rfl rfl (by decide)

/-- C8: for every 256-bit input, the `is_even` guest commits the ABI
encoding of the input itself when its lowest bit is clear, and the ABI
encoding of `U256` zero when its lowest bit is set; the committed journal
is always a full 32-byte word, so the guest never fails on an odd input. -/
theorem is_even_guest_journal_spec (n : Nat) (_hn : n < u256Bound) :
    (n % 2 = 1 → isEvenGuestJournal n = abiEncodeU256 0) ∧
    (n % 2 = 0 → isEvenGuestJournal n = abiEncodeU256 n) ∧
    (isEvenGuestJournal n).length = 32 := by
  refine ⟨?_, ?_, ?_⟩
  · intro h
    simp [isEvenGuestJournal, Nat.testBit_zero, h]
  · intro h
    simp [isEvenGuestJournal, Nat.testBit_zero, h]
  · cases hb : Nat.testBit n 0 <;>
      simp [isEvenGuestJournal, hb, abiEncodeU256, beBytes]

/-- Witness for C8 at the odd input 7 and the even input 6. -/
theorem is_even_guest_journal_spec_witness :
    isEvenGuestJournal 7 = abiEncodeU256 0 ∧
    isEvenGuestJournal 6 = abiEncodeU256 6 :=
  ⟨(is_even_guest_journal_spec 7 (by decide)).1 rfl,
   (is_even_guest_journal_spec 6 (by decide)).2.1 rfl⟩

theorem aSeq_mono : Monotone aSeq := by
  apply monotone_nat_of_le_succ
  intro n
  cases n with
  | zero => decide
  | succ m =>
    show aSeq (m + 1) ≤ aSeq (m + 2)
    rw [show aSeq (m + 2) = aSeq m + aSeq (m + 1) from rfl]
    exact Nat.le_add_left _ _

theorem fibLoop_eq (k : Nat) : ∀ m : Nat, aSeq (m + k + 1) < u256Bound →
    fibLoop k (aSeq m) (aSeq (m + 1)) = aSeq (m + k + 1) := by
  induction k with
  | zero =>
    intro m h
    simp [fibLoop]
  | succ k ih =>
    intro m h
    rw [fibLoop]
    have hsum : aSeq m + aSeq (m + 1) = aSeq (m + 2) := rfl
    have hle : aSeq (m + 2) ≤ aSeq (m + (k + 1) + 1) := aSeq_mono (by omega)
    have hlt : aSeq (m + 2) < u256Bound := lt_of_le_of_lt hle h
    rw [hsum, Nat.mod_eq_of_lt hlt]
    have heq : m + 1 + k + 1 = m + (k + 1) + 1 := by omega
    have h2 : aSeq (m + 1 + k + 1) < u256Bound := by rw [heq]; exact h
    have h3 := ih (m + 1) h2
    rw [heq] at h3
    exact h3

/-- C9: for every input `n ≥ 1` whose sequence value fits in 256 bits (so
that no intermediate 256-bit sum overflows), the guest `fibonacci`
function returns the `n`-th element of the sequence with
`a 1 = a 2 = 1` and `a k = a (k-1) + a (k-2)`; at `n = 0` it returns 1
(as it does at `n = 1` and `n = 2`). -/
theorem fibonacci_guest_matches_recurrence :
    (∀ n : Nat, 1 ≤ n → aSeq n < u256Bound → fibonacci n = aSeq n) ∧
    fibonacci 0 = 1 := by
  constructor
  · intro n hn hov
    match n, hn with
    | 1, _ => rfl
    | (k + 2), _ =>
      have heq : 1 + k + 1 = k + 2 := by omega
      have h2 : aSeq (1 + k + 1) < u256Bound := by rw [heq]; exact hov
      have h3 := fibLoop_eq k 1 h2
      rw [heq] at h3
      simpa [fibonacci, Nat.add_sub_cancel, aSeq] using h3
  · rfl

/-- Witness for C9: `fibonacci 10 = 55`, the tenth element of the
sequence, and `fibonacci 0 = 1`. -/
theorem fibonacci_guest_matches_recurrence_witness :
    fibonacci 10 = aSeq 10 ∧ fibonacci 0 = 1 :=
  ⟨fibonacci_guest_matches_recurrence.1 10 (by decide) (by decide),
   fibonacci_guest_matches_recurrence.2⟩

theorem find?_first {α : Type} (p : α → Bool) (l₁ : List α) (e : α) (l₂ : List α)
    (h1 : ∀ x ∈ l₁, ¬ p x = true) (he : p e = true) :
    (l₁ ++ e :: l₂).find? p = some e := by
  induction l₁ with
  | nil =>
    simp only [List.nil_append]
    exact List.find?_cons_of_pos _ he
  | cons a t ih =>
    have ha : ¬ p a = true := h1 a (List.mem_cons_self a t)
    rw [List.cons_append, List.find?_cons_of_neg _ ha]
    exact ih (fun x hx => h1 x (List.mem_cons_of_mem a hx))

/-- C10: `resolve_guest_entry` returns the ELF of the first guest entry
whose name equals the uppercased query or whose 32-byte image id equals
the hex decoding of the query (lowercased, with leading `"0x"` stripped),
and returns the unknown-guest error exactly when no entry matches; a query
that is not valid hex or does not decode to 32 bytes is not rejected but
compared against the all-zero image id, so it can still match by name. -/
theorem resolve_guest_entry_spec (guest_list : List GuestListEntry)
    (guest_binary : String) :
    (resolve_guest_entry guest_list guest_binary
        = .error ⟨guest_binary, guest_list.map (fun g => g.image_id)⟩
      ↔ ∀ e ∈ guest_list, ¬ matchesQuery guest_binary e) ∧
    (∀ l₁ e l₂, guest_list = l₁ ++ e :: l₂ →
      (∀ x ∈ l₁, ¬ matchesQuery guest_binary x) →
      matchesQuery guest_binary e →
      resolve_guest_entry guest_list guest_binary = .ok e.elf) ∧
    (hexDecode (trimStart0x (strToLower guest_binary).data) = none →
      potentialGuestImageId guest_binary = List.replicate 32 0) ∧
    (∀ bs, hexDecode (trimStart0x (strToLower guest_binary).data) = some bs →
      bs.length ≠ 32 → potentialGuestImageId guest_binary = List.replicate 32 0) := by
  have hb : ∀ x : GuestListEntry,
      guestMatches guest_binary x = true ↔ matchesQuery guest_binary x := by
    intro x
    simp [guestMatches, matchesQuery, Bool.or_eq_true, beq_iff_eq]
  refine ⟨⟨?_, ?_⟩, ?_, ?_, ?_⟩
  · intro herr e he hm
    cases hf : guest_list.find? (fun entry => guestMatches guest_binary entry) with
    | some x =>
      rw [resolve_guest_entry, hf] at herr
      simp at herr
    | none =>
      exact List.find?_eq_none.mp hf e he ((hb e).mpr hm)
  · intro hnone
    have hf : guest_list.find? (fun entry => guestMatches guest_binary entry) = none :=
      List.find?_eq_none.mpr (fun x hx hpx => hnone x hx ((hb x).mp hpx))
    rw [resolve_guest_entry, hf]
  · intro l₁ e l₂ hsplit h1 he
    subst hsplit
    rw [resolve_guest_entry,
      find?_first _ l₁ e l₂ (fun x hx hpx => h1 x hx ((hb x).mp hpx)) ((hb e).mpr he)]
  · intro hdec
    simp [potentialGuestImageId, hdec]
  · intro bs hdec hlen
    simp [potentialGuestImageId, hdec, hlen]

/-- Witness for C10: the query `"fib"` is not valid hex, yet resolves the
entry named `"FIB"` by name. -/
theorem resolve_guest_entry_spec_witness :
    resolve_guest_entry [⟨"FIB", List.replicate 32 1, [9]⟩] "fib" = .ok [9] :=
  (resolve_guest_entry_spec [⟨"FIB", List.replicate 32 1, [9]⟩] "fib").2.1
    [] ⟨"FIB", List.replicate 32 1, [9]⟩ [] rfl
    (fun x hx => absurd hx (List.not_mem_nil x))
    (Or.inl (by decide))
